import Mathlib

/-!
Verification of the NetSuiteSDF editor extension (src/src/netsuite-sdf.ts)
against its natural-language specification.

The development is a shallow embedding: the stateful `NetSuiteSDF` class
becomes an explicit state record (`SdfState`), observable side effects
(notifications, stdin injection, process spawns, temp-directory removal)
become an explicit `Effect` list, and the JavaScript string primitives used
by the source (`String.prototype.includes`, `split`, `trim`, `startsWith`)
are modelled as executable functions on `List Char` / `String`.
-/

/-! ## JavaScript string primitives

`String` in this Lean core is a structure wrapping `List Char`, so we model
the JS string operations directly on the character list.  All of them are
structurally recursive and kernel-computable, so concrete witnesses can be
settled by `decide`. -/

/-- Does the character list `s` begin with the pattern `pat`?
Embeds the "match at position 0" part of JS `String.prototype.includes`. -/
def startsWithChars : List Char → List Char → Bool
  | [], _ => true
  | _ :: _, [] => false
  | a :: pat, b :: s => a = b && startsWithChars pat s

/-- Does `s` contain `pat` as a contiguous subsequence?  Embeds JS
`String.prototype.includes` (substring containment, case-sensitive). -/
def containsChars (pat : List Char) : List Char → Bool
  | [] => startsWithChars pat []
  | b :: s => startsWithChars pat (b :: s) || containsChars pat s

/-- JS `line.includes(pat)` on Lean strings. -/
def jsIncludes (s pat : String) : Bool :=
  containsChars pat.data s.data

/-- JS `line.startsWith(pat)` on Lean strings. -/
def jsStartsWith (s pat : String) : Bool :=
  startsWithChars pat.data s.data

/-- Split a character list at every occurrence of the separator, keeping
empty segments.  Embeds JS `String.prototype.split` with a single-character
separator: `"a:b".split(":") = ["a","b"]`, `"".split(":") = [""]`,
`":".split(":") = ["",""]`. -/
def splitOnChar (sep : Char) : List Char → List (List Char)
  | [] => [[]]
  | c :: rest =>
    match splitOnChar sep rest with
    | [] => [[]]
    | l :: ls => if c = sep then [] :: l :: ls else (c :: l) :: ls

/-- JS `s.split(sep)` (single-character separator) on Lean strings. -/
def jsSplit (s : String) (sep : Char) : List String :=
  (splitOnChar sep s.data).map String.mk

/-- ASCII whitespace recognized by the model of JS `trim`. -/
def wsChar (c : Char) : Bool :=
  c = ' ' || c = '\t' || c = '\n' || c = '\r'

/-- JS `s.trim()`: strip leading and trailing whitespace.  (The source only
ever trims ASCII command output, so the ASCII whitespace set suffices.) -/
def jsTrim (s : String) : String :=
  String.mk (((s.data.dropWhile wsChar).reverse.dropWhile wsChar).reverse)

/-! ## Line-buffer view of splitting

For reasoning about the stream buffer we use an equivalent presentation of
`splitOnChar` that separates the complete (separator-terminated) segments
from the trailing partial segment. -/

/-- The pair `splitLines sep s = (complete, rest)`: `complete` is the list of
separator-terminated segments of `s` in order, `rest` is the trailing
segment after the last separator (possibly empty). -/
def splitLines (sep : Char) : List Char → List (List Char) × List Char
  | [] => ([], [])
  | c :: s =>
    let (ls, last) := splitLines sep s
    if c = sep then ([] :: ls, last)
    else
      match ls with
      | [] => ([], c :: last)
      | l :: ls => ((c :: l) :: ls, last)

/-- One step of `splitLines` (prepending a single character). -/
def stepChar (sep c : Char) (a : List (List Char) × List Char) :
    List (List Char) × List Char :=
  if c = sep then ([] :: a.1, a.2)
  else
    match a.1 with
    | [] => ([], c :: a.2)
    | l :: ls => ((c :: l) :: ls, a.2)

/-- Combine the split of two concatenated pieces: the first complete segment
of the right piece (if any) is finished by the partial segment of the left
piece. -/
def joinSplits (a b : List (List Char) × List Char) : List (List Char) × List Char :=
  match b.1 with
  | [] => (a.1, a.2 ++ b.2)
  | l :: ls => (a.1 ++ (a.2 ++ l) :: ls, b.2)

/-- Reassemble a split: interleaving the separator between the complete
segments and the trailing partial segment gives back the original list
(so the segments of a split are exactly the maximal separator-free runs). -/
def reglue (sep : Char) (lines : List (List Char)) (rest : List Char) : List Char :=
  lines.foldr (fun l r => l ++ sep :: r) rest

/-! ## Process Session output stream (runCommand, lines 948-964)

The source wraps the subprocess output in an observable that buffers
partial lines across delivery chunks:

    let acc = "";
    this.sdfcli.subscribe(value => {
      acc = acc + value;
      let lines = acc.split(newline);
      for (let line of lines.slice(0, -1)) observer.next(line);
      acc = lines[lines.length - 1];
    }, error => observer.error(error), () => observer.complete());

We model a chunk and the buffer as `List Char` and the produced line
sequence explicitly.  Note that the completion callback only calls
`observer.complete()`: it does not emit the buffered trailing segment. -/

/-- The newline separator used by the stream wrapper. -/
def nlChar : Char := '\n'

/-- Process one delivered chunk: append it to the buffer, emit every
complete line (`lines.slice(0, -1)`), keep the last segment buffered. -/
def feedChunk (acc chunk : List Char) : List Char × List (List Char) :=
  let lines := splitOnChar nlChar (acc ++ chunk)
  (lines.getLastD [], lines.dropLast)

/-- Run the stream wrapper over a whole chunk sequence, starting from an
empty buffer, collecting all emitted lines in order.  Returns the final
buffer contents and the emitted lines.  The subsequent completion callback
emits nothing further, so the second component is the entire line sequence
an observer of a completed session sees. -/
def streamSession (chunks : List (List Char)) : List Char × List (List Char) :=
  chunks.foldl
    (fun st chunk =>
      let fed := feedChunk st.1 chunk
      (fed.1, st.2 ++ fed.2))
    ([], [])

/-- All lines emitted by a completed session over the given chunks. -/
def sessionEmitted (chunks : List (List Char)) : List (List Char) :=
  (streamSession chunks).2

/-! ## Command kinds and line classification -/

/-- Modelled from the spec: the closed enumeration of command kinds
(`CLICommand`, imported by the source from src/cli-command.ts, which is not
part of the provided sources).  Each kind maps to a fixed subcommand token;
only the identity of the list-objects kind matters to the claims. -/
inductive CLICommand
  | addDependencies
  | createProject
  | deploy
  | importBundle
  | importFiles
  | importObjects
  | listBundles
  | listConfiguration
  | listFiles
  | listMissingDependencies
  | listObjects
  | preview
  | update
  | updateCustomRecordsWithInstances
  | validate
deriving DecidableEq, Repr

/-- Modelled from the spec: the fixed subcommand token of each command kind
(the string constants live in src/cli-command.ts, absent from the provided
sources).  Only its position as `argv[0]` matters to the claims. -/
def commandToken : CLICommand → String
  | .addDependencies => "adddependencies"
  | .createProject => "createproject"
  | .deploy => "deploy"
  | .importBundle => "importbundle"
  | .importFiles => "importfiles"
  | .importObjects => "importobjects"
  | .listBundles => "listbundles"
  | .listConfiguration => "listconfiguration"
  | .listFiles => "listfiles"
  | .listMissingDependencies => "listmissingdependencies"
  | .listObjects => "listobjects"
  | .preview => "preview"
  | .update => "update"
  | .updateCustomRecordsWithInstances => "updatecustomrecordswithinstances"
  | .validate => "validate"

/-- An observable side effect of the session: user notifications, text
appended to the output channel, a line injected into subprocess stdin, a
subprocess spawn, or removal of the temp (staging) directory. -/
inductive Effect
  | showError (msg : String)
  | showInfo (msg : String)
  | channelAppend (text : String)
  | injectStdin (line : String)
  | spawnProc (cwd : String) (args : List String)
  | removeTempDir (dirName : String)
deriving DecidableEq, Repr

/-- The production-deploy warning prompt recognized by `handleStdIn`. -/
def prodWarning : String :=
  "WARNING! You are deploying to a Production account, enter YES to continue"

/-- Result of `handleStdIn` for one line: whether the interactive
text-entry prompt was presented, and the effects (stdin injections and
output-channel appends) in order. -/
structure StdInResult where
  promptShown : Bool
  effects : List Effect
deriving DecidableEq, Repr

/-- Embedding of `handleStdIn` (netsuite-sdf.ts lines 863-888).  The source
is a `switch (true)` over `line.includes(...)` tests, checked in order:
the production warning case presents an input box (its entered value is the
`answer` parameter, `none` when dismissed) and injects `YES` newline-terminated
exactly when the answer is the literal string `Deploy`, else appends a
cancellation notice and injects `NO`; the five generic confirmation cases
share one fall-through body injecting `YES`; the default case does nothing. -/
def handleStdIn (line : String) (answer : Option String) : StdInResult :=
  if jsIncludes line prodWarning then
    if answer = some "Deploy" then ⟨true, [.injectStdin "YES\n"]⟩
    else ⟨true, [.channelAppend "Cancelling deployment.\n", .injectStdin "NO\n"]⟩
  else if jsIncludes line "Type YES to continue" then ⟨false, [.injectStdin "YES\n"]⟩
  else if jsIncludes line "enter YES to continue" then ⟨false, [.injectStdin "YES\n"]⟩
  else if jsIncludes line "Type YES to update the manifest file" then ⟨false, [.injectStdin "YES\n"]⟩
  else if jsIncludes line "Proceed with deploy?" then ⟨false, [.injectStdin "YES\n"]⟩
  else if jsIncludes line "Type Yes (Y) to continue." then ⟨false, [.injectStdin "YES\n"]⟩
  else ⟨false, []⟩

/-- The stdin injections (subject.next calls) of a `handleStdIn` result. -/
def StdInResult.injections (r : StdInResult) : List String :=
  r.effects.filterMap fun e =>
    match e with
    | .injectStdin l => some l
    | _ => none

/-- Embedding of `handleStdOut` (netsuite-sdf.ts lines 890-901).  The
source `switch (true)` has a `break` only in the first case: a line
containing the literal `That record does not exist.` does nothing; a line
containing `does not exist.` shows the custom-record error notification
and then FALLS THROUGH into the `Installation COMPLETE` case body, showing
the completion notification as well; a line containing
`Installation COMPLETE` (matching neither earlier case) shows only the
completion notification. -/
def handleStdOut (line : String) : List Effect :=
  if jsIncludes line "That record does not exist." then []
  else if jsIncludes line "does not exist." then
    [.showError "Custom record does not exist for updating. Please Import Object first.",
     .showInfo "Installation of deployment was completed."]
  else if jsIncludes line "Installation COMPLETE" then
    [.showInfo "Installation of deployment was completed."]
  else []

/-- Embedding of `mapCommandOutput` (netsuite-sdf.ts lines 903-910):
for the list-objects command a line containing a colon becomes
`line.split(':')[1]` (the second colon-delimited field); every other line
and every other command kind passes through unchanged. -/
def mapCommandOutput (command : CLICommand) (line : String) : String :=
  match command with
  | .listObjects => if jsIncludes line ":" then (jsSplit line ':').getD 1 "" else line
  | _ => line

/-- Embedding of the noise filter predicate in the `runCommand` pipeline
(netsuite-sdf.ts lines 970-979): a line survives unless it is empty
(falsy) or starts with one of the fixed boilerplate markers. -/
def keepLine (line : String) : Bool :=
  !(line = "" || jsStartsWith line "[INFO]"
      || jsStartsWith line "SuiteCloud Development Framework CLI"
      || jsStartsWith line "Done."
      || jsStartsWith line "Using ")

/-- The accumulated result of the `runCommand` pipeline over the emitted
line sequence: noise-filter, per-command transform, then reduce by
appending in arrival order (netsuite-sdf.ts lines 966-982). -/
def collectOutput (command : CLICommand) (lines : List String) : List String :=
  (lines.filter keepLine).map (mapCommandOutput command)

/-! ## Session state and orchestration -/

/-- Modelled from the spec: an authenticated environment identity (the
`Environment` interface from src/environment.ts, absent from the provided
sources): a record with the single field `authid`. -/
structure Environment where
  authid : String
deriving DecidableEq, Repr

/-- Modelled from the spec: the registry of environments (the `SDFConfig`
interface from src/sdf-config.ts, absent from the provided sources). -/
structure SDFConfig where
  environments : List Environment
deriving DecidableEq, Repr

/-- The mutable per-session fields of the `NetSuiteSDF` class that the
claims concern.  `tempDir` is the `name` of the tmp handle when one is
active (`tmp.dirSync` yields an absolute path under the system temp
directory); `statusText` is `statusBar.text`; `intervalActive` tracks the
status-animation interval handle. -/
structure SdfState where
  activeEnvironment : Option Environment
  addDefaultParameters : Bool
  collectedData : List String
  currentObject : Option String
  doAddProjectParameter : Bool
  doReturnData : Bool
  doShowOutput : Bool
  intervalActive : Bool
  rootPath : String
  savedStatus : Option String
  sdfConfig : Option SDFConfig
  statusText : String
  tempDir : Option String
deriving DecidableEq, Repr

/-- Embedding of the `statusBarDefault` getter (lines 65-71). -/
def statusBarDefault (s : SdfState) : String :=
  match s.activeEnvironment with
  | some env => "SDF (" ++ env.authid ++ ")"
  | none => "SDF"

/-- Embedding of `clearStatus` (lines 824-831): restore a saved status
text if one was captured, else the default label. -/
def clearStatus (s : SdfState) : SdfState :=
  match s.savedStatus with
  | some saved => { s with statusText := saved, savedStatus := none }
  | none => { s with statusText := statusBarDefault s }

/-- Embedding of the state changes of `showStatus` (lines 990-999): save
the current status text and start the animation interval. -/
def showStatus (s : SdfState) : SdfState :=
  { s with savedStatus := some s.statusText, intervalActive := true }

/-- Embedding of `cleanup` (lines 803-822), in source order: clear
collected data and current object unless data-return mode is on; stop the
interval; restore the status text; reset the per-command flags to their
defaults; invoke the temp directory removal callback when a handle with a
nonempty name is present and clear the handle. -/
def cleanup (s : SdfState) : SdfState × List Effect :=
  let s := if !s.doReturnData then { s with collectedData := [], currentObject := none } else s
  let s := { s with intervalActive := false }
  let s := clearStatus s
  let s := { s with doAddProjectParameter := true, doReturnData := false, doShowOutput := true }
  let removalEffects := match s.tempDir with
    | some dirName => if dirName ≠ "" then [Effect.removeTempDir dirName] else []
    | none => []
  ({ s with tempDir := none, addDefaultParameters := true }, removalEffects)

/-- Join a list of path segments with slashes. -/
def slashJoin : List String → String
  | [] => ""
  | [s] => s
  | s :: rest => s ++ "/" ++ slashJoin rest

/-- Modelled from Node `path.join` (POSIX), the external primitive used at
line 922 (`path.join(workPath, this.tempDir.name)`): concatenate the two
segments with a slash and normalize the result (drop empty and `.`
segments, resolve `..`).  A second segment that is itself absolute is NOT
re-rooted: `path.join("/a", "/b") = "/a/b"`. -/
def pathJoin (a b : String) : String :=
  let joined := if a = "" then b else if b = "" then a else a ++ "/" ++ b
  if joined = "" then "."
  else
    let isAbs := jsStartsWith joined "/"
    let segs := (jsSplit joined '/').filter fun seg => seg ≠ "" && seg ≠ "."
    let resolved := segs.foldl
      (fun acc seg =>
        if seg = ".." then
          match acc.getLast? with
          | some last => if last = ".." then acc ++ [seg] else acc.dropLast
          | none => if isAbs then acc else [seg]
        else acc ++ [seg]) ([] : List String)
    let body := slashJoin resolved
    if isAbs then "/" ++ body else if body = "" then "." else body

/-- Embedding of the inner `_selectEnvironment` closure of
`selectEnvironment` (lines 712-737), for a loaded registry `cfg`.  The
source builds a JS object keyed by authid (key order = first insertion;
since `Environment` has only the `authid` field, the value stored under a
key equals the environment named by that key) and either auto-selects a single
environment or consults the quick-pick (`chooserAnswer`, `none` when
dismissed). -/
def selectEnvironmentInner (s : SdfState) (cfg : SDFConfig)
    (chooserAnswer : Option String) : SdfState × List Effect :=
  let environmentNames := (cfg.environments.map Environment.authid).eraseDups
  match environmentNames with
  | [environmentName] =>
    let s := { s with activeEnvironment := some ⟨environmentName⟩ }
    ({ s with statusText := statusBarDefault s },
      [Effect.showInfo ("Found only one environment. Using " ++ environmentName)])
  | _ =>
    match chooserAnswer with
    | some environmentName =>
      let s := { s with
        activeEnvironment :=
          if environmentName ∈ environmentNames then some ⟨environmentName⟩ else none }
      ({ s with statusText := statusBarDefault s }, [])
    | none => (s, [])

/-- Embedding of `getConfig` (lines 833-861).  `authListOutput` is the
text captured from `sdfcli manageauth -list` (the synchronous subprocess
is modelled as this input); `chooserAnswer` feeds the quick-pick of a
nested `selectEnvironment` call.  The workspace folder is assumed present
(`rootPath` is kept as is; the claims do not exercise the no-workspace
error path).  When a (re)load is needed, the trimmed output is split into
lines; fewer than 2 lines raises the no-authids notification and leaves
the registry untouched, otherwise every line after the header contributes
an environment whose authid is its first pipe-delimited field, trimmed. -/
def getConfig (s : SdfState) (force : Bool) (authListOutput : String)
    (chooserAnswer : Option String) : SdfState × List Effect :=
  if force || s.sdfConfig.isNone then
    let lines := jsSplit (jsTrim authListOutput) '\n'
    if lines.length < 2 then
      (s, [Effect.showError "No authids detected.  Please configure an authid for your environment"])
    else
      let environments := (lines.drop 1).map fun line => Environment.mk (jsTrim ((jsSplit line '|').headD ""))
      ({ s with sdfConfig := some (SDFConfig.mk environments) }, [])
  else
    match s.sdfConfig, s.activeEnvironment with
    | some cfg, none => selectEnvironmentInner s cfg chooserAnswer
    | _, _ => (s, [])

/-- The effects of the three `.do` taps of the `runCommand` pipeline for
one emitted line (lines 967-969): echo to the output channel when output
display is on, then `handleStdIn`, then `handleStdOut`. -/
def lineTapEffects (doShowOut : Bool) (deployAnswer : Option String) (line : String) :
    List Effect :=
  (if doShowOut then [Effect.channelAppend (line ++ "\n")] else [])
    ++ (handleStdIn line deployAnswer).effects
    ++ handleStdOut line

/-- The working directory of the spawned subprocess (runCommand lines
920-923): the project root, or -- when a staging handle is active --
`path.join(this.rootPath, this.tempDir.name)`. -/
def workPathOf (s1 : SdfState) : String :=
  match s1.tempDir with
  | some dirName => pathJoin s1.rootPath dirName
  | none => s1.rootPath

/-- The argument vector of the spawned subprocess (runCommand lines
925-936): subcommand token, then `-authid <active>` when default
parameters are on, then `-p <workPath>` when the project parameter is on,
then every extra argument split on spaces. -/
def commandArrayOf (s1 : SdfState) (command : CLICommand) (args : List String) :
    List String :=
  [commandToken command]
    ++ (if s1.addDefaultParameters then
          ["-authid", (s1.activeEnvironment.map Environment.authid).getD ""] else [])
    ++ (if s1.doAddProjectParameter then ["-p", workPathOf s1] else [])
    ++ (args.map (fun arg => jsSplit arg ' ')).flatten

/-- The part of `runCommand` after its initial `getConfig` call (lines
914-987): the guard on a loaded registry and selected environment, the
spawn, the line pipeline over the stream outcome, and cleanup.  `s1` is
the state after `getConfig` and `cfgEffects` the effects it emitted. -/
def runCommandExec (s1 : SdfState) (cfgEffects : List Effect)
    (command : CLICommand) (args : List String) (deployAnswer : Option String)
    (outcome : Except String (List (List Char))) :
    SdfState × List Effect × Option (List String) :=
  if s1.sdfConfig.isSome && s1.activeEnvironment.isSome then
    let workPath := workPathOf s1
    let commandArray := commandArrayOf s1 command args
    let s2 := showStatus s1
    match outcome with
    | Except.ok chunks =>
      let lines := (sessionEmitted chunks).map String.mk
      let tapEffects := (lines.map (lineTapEffects s2.doShowOutput deployAnswer)).flatten
      let collected := collectOutput command lines
      let c := cleanup s2
      (c.1, cfgEffects ++ [Effect.spawnProc workPath commandArray] ++ tapEffects ++ c.2,
        some collected)
    | Except.error _ =>
      let c1 := cleanup s2
      let c2 := cleanup c1.1
      (c2.1, cfgEffects ++ [Effect.spawnProc workPath commandArray] ++ c1.2 ++ c2.2, none)
  else (s1, cfgEffects, none)

/-- Embedding of `runCommand` (lines 912-988).  Inputs standing for the
environment: `authListOutput` and `chooserAnswer` feed the `getConfig`
call; `deployAnswer` is the production-deploy input-box value; `outcome`
is the subprocess stream: `Except.ok chunks` delivers the given stdout
chunks and then completes, `Except.error` is a stream/exit error (the
rejection path; its per-line effects are not modelled).  Returns the
final state, the effect trace, and the value the returned promise
resolves to (`none` both when the guard fails and on the rejection path,
where the `catch` handler returns the `undefined` result of `cleanup`).  On
rejection the source runs `cleanup` twice: once in the `catch` handler
and once after the `await`. -/
def runCommand (s0 : SdfState) (command : CLICommand) (args : List String)
    (authListOutput : String) (chooserAnswer deployAnswer : Option String)
    (outcome : Except String (List (List Char))) :
    SdfState × List Effect × Option (List String) :=
  let cfgR := getConfig s0 false authListOutput chooserAnswer
  runCommandExec cfgR.1 cfgR.2 command args deployAnswer outcome

/-- Observer: the subprocess spawns recorded in an effect trace, as
(working directory, argument vector) pairs. -/
def spawnCalls (effects : List Effect) : List (String × List String) :=
  effects.filterMap fun e =>
    match e with
    | Effect.spawnProc cwd args => some (cwd, args)
    | _ => none

/-- Observer: the temp-directory removal callbacks recorded in an effect
trace. -/
def removeCalls (effects : List Effect) : List String :=
  effects.filterMap fun e =>
    match e with
    | Effect.removeTempDir dirName => some dirName
    | _ => none

/-! ## Deployment manifest (deploy.xml) -/

/-- The parsed deployment manifest: the `deploy.files[0].path` and
`deploy.objects[0].path` lists of the document (missing lists read as
empty via the `_.get(deployJs, xmlPath, [])` default). -/
structure DeployDoc where
  files : List String
  objects : List String
deriving DecidableEq, Repr

/-- The two targets an added path can be classified into. -/
inductive PathKind
  | fileKind
  | objectKind
deriving DecidableEq, Repr

/-- Embedding of the manifest mutation at the end of `addFileToDeploy`
(lines 659-685): look up the target list; if the relative path is already
included, notify and leave the document untouched (no write); otherwise
push it at the end and persist.  The Bool reports whether the document was
mutated (and written). -/
def addPath (doc : DeployDoc) (kind : PathKind) (relativePath : String) :
    DeployDoc × Bool :=
  let elements := match kind with
    | PathKind.fileKind => doc.files
    | PathKind.objectKind => doc.objects
  if relativePath ∈ elements then (doc, false)
  else
    match kind with
    | PathKind.fileKind => ({ doc with files := doc.files ++ [relativePath] }, true)
    | PathKind.objectKind => ({ doc with objects := doc.objects ++ [relativePath] }, true)

/-! ## Concrete states for witnesses and counterexamples -/

/-- A session state with a loaded one-entry registry and active
environment `prod`, no staging directory. -/
def prodState : SdfState :=
  { activeEnvironment := some ⟨"prod"⟩
    addDefaultParameters := true
    collectedData := []
    currentObject := none
    doAddProjectParameter := true
    doReturnData := false
    doShowOutput := true
    intervalActive := false
    rootPath := "/home/user/proj"
    savedStatus := none
    sdfConfig := some ⟨[⟨"prod"⟩]⟩
    statusText := "SDF (prod)"
    tempDir := none }

/-- The state `prodState` with an active staging directory handle.  `tmp.dirSync`
creates the directory under the system temp root and stores its absolute
path in `.name`, which `_generateTempDeployDirectory` (line 152) assigns
to `this.tempDir`. -/
def stagedState : SdfState :=
  { prodState with tempDir := some "/tmp/sdf-123" }

/-- A state right after the authenticate flow invalidated the registry
(`sdfConfig = null`), with a previously selected environment whose authid
is about to vanish from the freshly loaded account list. -/
def staleState : SdfState :=
  { prodState with
      sdfConfig := none
      activeEnvironment := some ⟨"stale"⟩
      statusText := "SDF (stale)" }

/-- A sample `sdfcli manageauth -list` output: header plus one data row. -/
def authListSample : String := "authid|account\nprod|12345"

/-! ## Auxiliary lemmas -/

theorem startsWithChars_iff (pat s : List Char) :
    startsWithChars pat s = true ↔ ∃ t, s = pat ++ t := by
  induction pat generalizing s with
  | nil => simp [startsWithChars]
  | cons a pat ih =>
    cases s with
    | nil => simp [startsWithChars]
    | cons b s =>
      simp only [startsWithChars, Bool.and_eq_true, decide_eq_true_eq, ih]
      constructor
      · rintro ⟨rfl, t, rfl⟩
        exact ⟨t, rfl⟩
      · rintro ⟨t, h⟩
        cases h
        exact ⟨rfl, t, rfl⟩

theorem containsChars_iff (pat s : List Char) :
    containsChars pat s = true ↔ ∃ u v, s = u ++ pat ++ v := by
  induction s with
  | nil =>
    simp only [containsChars, startsWithChars_iff]
    constructor
    · rintro ⟨t, h⟩
      exact ⟨[], t, by simpa using h⟩
    · rintro ⟨u, v, h⟩
      exact ⟨v, by rw [h]; cases u <;> simp_all⟩
  | cons b s ih =>
    simp only [containsChars, Bool.or_eq_true, startsWithChars_iff, ih]
    constructor
    · rintro (⟨t, h⟩ | ⟨u, v, h⟩)
      · exact ⟨[], t, by simpa using h⟩
      · exact ⟨b :: u, v, by simp [h]⟩
    · rintro ⟨u, v, h⟩
      cases u with
      | nil => exact Or.inl ⟨v, by simpa using h⟩
      | cons x u =>
        simp only [List.cons_append, List.cons.injEq] at h
        exact Or.inr ⟨u, v, h.2⟩

/-- Substring containment is transitive: if a line contains `big` and `big`
contains `small`, the line contains `small`. -/
theorem jsIncludes_trans {line big small : String}
    (h1 : jsIncludes line big = true)
    (h2 : containsChars small.data big.data = true) :
    jsIncludes line small = true := by
  rw [jsIncludes, containsChars_iff] at h1 ⊢
  rw [containsChars_iff] at h2
  obtain ⟨u, v, hline⟩ := h1
  obtain ⟨x, y, hbig⟩ := h2
  exact ⟨u ++ x, y ++ v, by simp [hline, hbig]⟩

/-- A single-character pattern is contained iff the character occurs. -/
theorem jsIncludes_singleton (s : String) (c : Char) :
    jsIncludes s (String.mk [c]) = true ↔ c ∈ s.data := by
  rw [jsIncludes, containsChars_iff]
  constructor
  · rintro ⟨u, v, h⟩
    simp [h]
  · intro h
    obtain ⟨u, v, huv⟩ := List.append_of_mem h
    exact ⟨u, v, by simpa using huv⟩

theorem splitOnChar_ne_nil (sep : Char) (s : List Char) :
    splitOnChar sep s ≠ [] := by
  cases s with
  | nil => simp [splitOnChar]
  | cons c rest =>
    simp only [splitOnChar]
    cases h : splitOnChar sep rest with
    | nil => simp
    | cons l ls =>
      by_cases hc : c = sep <;> simp [hc]

theorem splitLines_cons (sep c : Char) (s : List Char) :
    splitLines sep (c :: s) = stepChar sep c (splitLines sep s) := by
  rcases hs : splitLines sep s with ⟨L, p⟩
  simp only [splitLines, hs, stepChar]

theorem splitOnChar_eq_splitLines (sep : Char) (s : List Char) :
    splitOnChar sep s = (splitLines sep s).1 ++ [(splitLines sep s).2] := by
  induction s with
  | nil => simp [splitOnChar, splitLines]
  | cons c s ih =>
    rw [splitOnChar, splitLines_cons, ih]
    rcases hs : splitLines sep s with ⟨L, p⟩
    by_cases hc : c = sep
    · cases L <;> simp [stepChar, hc]
    · cases L <;> simp [stepChar, hc]

theorem splitLines_of_not_mem {sep : Char} {s : List Char} (h : sep ∉ s) :
    splitLines sep s = ([], s) := by
  induction s with
  | nil => simp [splitLines]
  | cons c s ih =>
    simp only [List.mem_cons, not_or] at h
    rw [splitLines_cons, ih h.2]
    have hcs : ¬c = sep := fun hh => h.1 hh.symm
    simp [stepChar, hcs]

theorem splitLines_rest_not_mem (sep : Char) (s : List Char) :
    sep ∉ (splitLines sep s).2 := by
  induction s with
  | nil => simp [splitLines]
  | cons c s ih =>
    rw [splitLines_cons]
    rcases hs : splitLines sep s with ⟨L, p⟩
    rw [hs] at ih
    by_cases hc : c = sep
    · simpa [stepChar, hc] using ih
    · cases L with
      | nil =>
        simp only [stepChar, if_neg hc, List.mem_cons, not_or]
        exact ⟨fun h => hc h.symm, ih⟩
      | cons l ls => simpa [stepChar, hc] using ih

theorem splitLines_complete_not_mem (sep : Char) (s : List Char) :
    ∀ l ∈ (splitLines sep s).1, sep ∉ l := by
  induction s with
  | nil => simp [splitLines]
  | cons c s ih =>
    rw [splitLines_cons]
    rcases hs : splitLines sep s with ⟨L, p⟩
    rw [hs] at ih
    by_cases hc : c = sep
    · simp only [stepChar, if_pos hc]
      intro l hl
      rcases List.mem_cons.mp hl with rfl | hl
      · simp
      · exact ih l hl
    · cases L with
      | nil => simp [stepChar, hc]
      | cons l0 ls =>
        simp only [stepChar, if_neg hc]
        intro l hl
        rcases List.mem_cons.mp hl with rfl | hl
        · have h0 := ih l0 (List.mem_cons_self _ _)
          simp only [List.mem_cons, not_or]
          exact ⟨fun h => hc h.symm, h0⟩
        · exact ih l (List.mem_cons_of_mem _ hl)

theorem stepChar_joinSplits (sep c : Char) (a b : List (List Char) × List Char) :
    stepChar sep c (joinSplits a b) = joinSplits (stepChar sep c a) b := by
  obtain ⟨la, pa⟩ := a
  obtain ⟨lb, pb⟩ := b
  by_cases hc : c = sep
  · cases lb <;> simp [stepChar, joinSplits, hc]
  · cases la <;> cases lb <;> simp [stepChar, joinSplits, hc]

theorem splitLines_append (sep : Char) (xs ys : List Char) :
    splitLines sep (xs ++ ys) = joinSplits (splitLines sep xs) (splitLines sep ys) := by
  induction xs with
  | nil =>
    rw [List.nil_append]
    rcases hys : splitLines sep ys with ⟨ly, py⟩
    cases ly <;> simp [splitLines, joinSplits]
  | cons c xs ih =>
    rw [List.cons_append, splitLines_cons, ih, splitLines_cons, stepChar_joinSplits]

/-- Splitting `xs ++ ys` yields the complete segments of `xs` followed by
the split of the carried-over partial segment prepended to `ys`. -/
theorem splitLines_carry (sep : Char) (xs ys : List Char) :
    splitLines sep (xs ++ ys) =
      ((splitLines sep xs).1 ++ (splitLines sep ((splitLines sep xs).2 ++ ys)).1,
        (splitLines sep ((splitLines sep xs).2 ++ ys)).2) := by
  rw [splitLines_append]
  have hrest : splitLines sep ((splitLines sep xs).2 ++ ys)
      = joinSplits ([], (splitLines sep xs).2) (splitLines sep ys) := by
    rw [splitLines_append, splitLines_of_not_mem (splitLines_rest_not_mem sep xs)]
  rw [hrest]
  rcases hys : splitLines sep ys with ⟨ly, py⟩
  cases ly <;> simp [joinSplits]

theorem splitLines_reglue (sep : Char) (s : List Char) :
    reglue sep (splitLines sep s).1 (splitLines sep s).2 = s := by
  induction s with
  | nil => simp [splitLines, reglue]
  | cons c s ih =>
    rw [splitLines_cons]
    rcases hs : splitLines sep s with ⟨L, p⟩
    rw [hs] at ih
    by_cases hc : c = sep
    · simp only [stepChar, if_pos hc, reglue, List.foldr_cons, List.nil_append]
      rw [show List.foldr (fun l r => l ++ sep :: r) p L = reglue sep L p from rfl, ih, hc]
    · cases L with
      | nil =>
        simp only [stepChar, if_neg hc, reglue, List.foldr_nil] at ih ⊢
        rw [ih]
      | cons l ls =>
        simp only [stepChar, if_neg hc, reglue, List.foldr_cons, List.cons_append] at ih ⊢
        rw [ih]

theorem feedChunk_eq_splitLines (acc chunk : List Char) :
    feedChunk acc chunk =
      ((splitLines nlChar (acc ++ chunk)).2, (splitLines nlChar (acc ++ chunk)).1) := by
  rw [feedChunk, splitOnChar_eq_splitLines]
  simp [List.getLastD_concat, List.dropLast_concat]

theorem streamSession_foldl (chunks : List (List Char)) :
    ∀ acc out, nlChar ∉ acc →
      chunks.foldl
        (fun st chunk =>
          let fed := feedChunk st.1 chunk
          (fed.1, st.2 ++ fed.2))
        (acc, out) =
      ((splitLines nlChar (acc ++ chunks.flatten)).2,
        out ++ (splitLines nlChar (acc ++ chunks.flatten)).1) := by
  induction chunks with
  | nil =>
    intro acc out hacc
    simp [splitLines_of_not_mem hacc]
  | cons chunk chunks ih =>
    intro acc out hacc
    rw [List.foldl_cons]
    have hstep :
        (let fed := feedChunk (acc, out).1 chunk; (fed.1, (acc, out).2 ++ fed.2))
        = ((splitLines nlChar (acc ++ chunk)).2,
            out ++ (splitLines nlChar (acc ++ chunk)).1) := by
      show ((feedChunk acc chunk).1, out ++ (feedChunk acc chunk).2) = _
      rw [feedChunk_eq_splitLines]
    rw [hstep, ih _ _ (splitLines_rest_not_mem nlChar (acc ++ chunk))]
    rw [List.flatten_cons,
      show acc ++ (chunk ++ chunks.flatten) = (acc ++ chunk) ++ chunks.flatten by simp]
    rw [splitLines_carry nlChar (acc ++ chunk) chunks.flatten]
    simp

/-- Characterization of the stream wrapper: the emitted lines are exactly
the newline-terminated segments of the concatenated chunk stream, in
order, and the final buffer holds the trailing unterminated segment. -/
theorem streamSession_eq (chunks : List (List Char)) :
    streamSession chunks =
      ((splitLines nlChar chunks.flatten).2, (splitLines nlChar chunks.flatten).1) := by
  rw [streamSession, streamSession_foldl chunks [] [] (by simp)]
  simp

/-- Full behavior of `cleanup` on an arbitrary state: per-command flags
restored to defaults, temp handle cleared with its removal callback
invoked exactly when a handle with nonempty name existed, status text
restored from the saved text (or default), other session identity fields
untouched. -/
theorem cleanup_spec (s : SdfState) :
    (cleanup s).1.doAddProjectParameter = true
    ∧ (cleanup s).1.addDefaultParameters = true
    ∧ (cleanup s).1.doShowOutput = true
    ∧ (cleanup s).1.doReturnData = false
    ∧ (cleanup s).1.tempDir = none
    ∧ (cleanup s).1.savedStatus = none
    ∧ (cleanup s).1.activeEnvironment = s.activeEnvironment
    ∧ (cleanup s).1.statusText =
        (match s.savedStatus with
          | some saved => saved
          | none => statusBarDefault s)
    ∧ (cleanup s).2 =
        (match s.tempDir with
          | some dirName => if dirName ≠ "" then [Effect.removeTempDir dirName] else []
          | none => []) := by
  cases hsv : s.savedStatus <;> cases htd : s.tempDir <;>
    cases hdr : s.doReturnData <;>
      simp [cleanup, clearStatus, statusBarDefault, hsv, htd, hdr]

/-! ## Claim theorems -/

/-- C1: for an output line containing the production-deploy warning the
interaction driver presents the text-entry prompt and injects the literal
line `YES\n` iff the entered response is exactly the string `Deploy`
(anything else, including an empty or dismissed prompt, injects `NO\n`);
a line not containing the production warning but matching any of the five
other recognized prompt substrings injects `YES\n` unconditionally with no
prompt; and at most one stdin injection is performed per line. -/
theorem handleStdIn_prompt_protocol (line : String) (answer : Option String) :
    (jsIncludes line prodWarning = true →
      (handleStdIn line answer).promptShown = true
      ∧ ((handleStdIn line answer).injections = ["YES\n"] ↔ answer = some "Deploy")
      ∧ (answer ≠ some "Deploy" → (handleStdIn line answer).injections = ["NO\n"]))
    ∧ (jsIncludes line prodWarning = false →
        (jsIncludes line "Type YES to continue" = true
          ∨ jsIncludes line "enter YES to continue" = true
          ∨ jsIncludes line "Type YES to update the manifest file" = true
          ∨ jsIncludes line "Proceed with deploy?" = true
          ∨ jsIncludes line "Type Yes (Y) to continue." = true) →
        (handleStdIn line answer).promptShown = false
        ∧ (handleStdIn line answer).injections = ["YES\n"])
    ∧ (handleStdIn line answer).injections.length ≤ 1 := by
  refine ⟨?_, ?_, ?_⟩
  · intro h
    by_cases ha : answer = some "Deploy" <;>
      simp [handleStdIn, h, ha, StdInResult.injections]
  · intro h hor
    simp only [handleStdIn, h, Bool.false_eq_true, if_false]
    split_ifs with h1 h2 h3 h4 h5 <;>
      simp_all [StdInResult.injections]
  · unfold handleStdIn
    split_ifs <;>
      by_cases ha : answer = some "Deploy" <;>
        simp [ha, StdInResult.injections]

/-- C1 witness: the production warning line itself with the response
`Deploy` shows the prompt and injects exactly `YES\n`. -/
theorem handleStdIn_prompt_protocol_witness :
    (handleStdIn prodWarning (some "Deploy")).promptShown = true
    ∧ (handleStdIn prodWarning (some "Deploy")).injections = ["YES\n"] := by
  have h := (handleStdIn_prompt_protocol prodWarning (some "Deploy")).1 (by decide)
  exact ⟨h.1, h.2.1.mpr rfl⟩

/-- C10: `handleStdOut` classification with the fall-through of the source: a
line containing `That record does not exist.` produces no notification; a
line containing `does not exist.` (but not the former) produces the
custom-record error notification AND, by fall-through, the installation
success notification; and the success notification appears alone exactly
for lines containing `Installation COMPLETE` but not `does not exist.`. -/
theorem handleStdOut_fallthrough (line : String) :
    (jsIncludes line "That record does not exist." = true → handleStdOut line = [])
    ∧ (jsIncludes line "does not exist." = true →
        jsIncludes line "That record does not exist." = false →
        handleStdOut line =
          [Effect.showError "Custom record does not exist for updating. Please Import Object first.",
           Effect.showInfo "Installation of deployment was completed."])
    ∧ (handleStdOut line = [Effect.showInfo "Installation of deployment was completed."] ↔
        (jsIncludes line "Installation COMPLETE" = true
          ∧ jsIncludes line "does not exist." = false)) := by
  refine ⟨?_, ?_, ?_, ?_⟩
  · intro h
    simp [handleStdOut, h]
  · intro h1 h2
    simp [handleStdOut, h1, h2]
  · intro h
    unfold handleStdOut at h
    split_ifs at h with h1 h2 h3
    · exact absurd h (by simp)
    · exact ⟨h3, by simpa using h2⟩
  · rintro ⟨hic, hdne⟩
    have h1 : jsIncludes line "That record does not exist." = false := by
      cases hx : jsIncludes line "That record does not exist."
      · rfl
      · have := jsIncludes_trans hx
          (show containsChars ("does not exist." : String).data
              ("That record does not exist." : String).data = true by decide)
        rw [this] at hdne
        cases hdne
    simp [handleStdOut, h1, hdne, hic]

/-- C10 witness: `customrecord_x does not exist.` triggers both the error
and, by fall-through, the success notification. -/
theorem handleStdOut_fallthrough_witness :
    handleStdOut "customrecord_x does not exist." =
      [Effect.showError "Custom record does not exist for updating. Please Import Object first.",
       Effect.showInfo "Installation of deployment was completed."] := by
  exact (handleStdOut_fallthrough "customrecord_x does not exist.").2.1 (by decide) (by decide)

theorem data_append (s t : String) : (s ++ t).data = s.data ++ t.data := by
  obtain ⟨a⟩ := s
  obtain ⟨b⟩ := t
  rfl

theorem splitOnChar_of_not_mem {sep : Char} {s : List Char} (h : sep ∉ s) :
    splitOnChar sep s = [s] := by
  rw [splitOnChar_eq_splitLines, splitLines_of_not_mem h]
  rfl

theorem splitOnChar_sandwich {sep : Char} {a : List Char} (b : List Char)
    (ha : sep ∉ a) :
    splitOnChar sep (a ++ sep :: b) = a :: splitOnChar sep b := by
  rw [splitOnChar_eq_splitLines, splitOnChar_eq_splitLines]
  have h1 : splitLines sep (a ++ sep :: b)
      = joinSplits ([], a) (splitLines sep (sep :: b)) := by
    rw [splitLines_append, splitLines_of_not_mem ha]
  rw [h1, splitLines_cons]
  rcases hsb : splitLines sep b with ⟨L, p⟩
  simp [stepChar, joinSplits]

/-- C6 counterexample: for the list-objects kind the line `a:b:c` is mapped
to `b`, the second colon-delimited field, not to `b:c`, the text after the
first colon, refuting the multiple-colon clause of the claim. -/
theorem mapCommandOutput_counterexample :
    mapCommandOutput CLICommand.listObjects "a:b:c" = "b"
    ∧ mapCommandOutput CLICommand.listObjects "a:b:c" ≠ "b:c" := by
  decide

/-- C6 (amended): for the list-objects kind a line containing a colon is
mapped to its second colon-delimited field — the text between the first
and second colon; for a line with exactly one colon this is the text after
the colon.  A list-objects line without a colon, and every line of every
other command kind, passes through unchanged. -/
theorem mapCommandOutput_second_field (a b c line : String) (cmd : CLICommand)
    (ha : (':' : Char) ∉ a.data) (hb : (':' : Char) ∉ b.data) :
    mapCommandOutput CLICommand.listObjects (a ++ ":" ++ b) = b
    ∧ mapCommandOutput CLICommand.listObjects (a ++ ":" ++ b ++ ":" ++ c) = b
    ∧ (jsIncludes line ":" = false → mapCommandOutput CLICommand.listObjects line = line)
    ∧ (cmd ≠ CLICommand.listObjects → mapCommandOutput cmd line = line) := by
  have hdata2 : (a ++ ":" ++ b).data = a.data ++ ':' :: b.data := by
    simp [data_append]
  have hdata3 : (a ++ ":" ++ b ++ ":" ++ c).data
      = a.data ++ ':' :: (b.data ++ ':' :: c.data) := by
    simp [data_append]
  have hinc2 : jsIncludes (a ++ ":" ++ b) ":" = true := by
    refine (jsIncludes_singleton _ ':').mpr ?_
    rw [hdata2]
    simp
  have hinc3 : jsIncludes (a ++ ":" ++ b ++ ":" ++ c) ":" = true := by
    refine (jsIncludes_singleton _ ':').mpr ?_
    rw [hdata3]
    simp
  have hsplit2 : jsSplit (a ++ ":" ++ b) ':' = [a, b] := by
    rw [jsSplit, hdata2, splitOnChar_sandwich _ ha, splitOnChar_of_not_mem hb]
    rfl
  have hsplit3 : ∃ rest, jsSplit (a ++ ":" ++ b ++ ":" ++ c) ':' = a :: b :: rest := by
    rw [jsSplit, hdata3, splitOnChar_sandwich _ ha, splitOnChar_sandwich _ hb]
    exact ⟨(splitOnChar ':' c.data).map String.mk, rfl⟩
  obtain ⟨rest, hsplit3⟩ := hsplit3
  refine ⟨?_, ?_, ?_, ?_⟩
  · simp [mapCommandOutput, hinc2, hsplit2]
  · simp [mapCommandOutput, hinc3, hsplit3]
  · intro h
    simp [mapCommandOutput, h]
  · intro h
    cases cmd <;> first | rfl | exact absurd rfl h

/-- C6 witness: concrete instances of the amended transform. -/
theorem mapCommandOutput_second_field_witness :
    mapCommandOutput CLICommand.listObjects ("customrecord_type" ++ ":" ++ "Some Label")
        = "Some Label"
    ∧ mapCommandOutput CLICommand.listObjects ("a" ++ ":" ++ "b" ++ ":" ++ "c") = "b" := by
  exact ⟨(mapCommandOutput_second_field "customrecord_type" "Some Label" "" ""
      CLICommand.deploy (by decide) (by decide)).1,
    (mapCommandOutput_second_field "a" "b" "c" ""
      CLICommand.deploy (by decide) (by decide)).2.1⟩

/-- C7: adding the same relative path with the same path kind twice
mutates the manifest exactly once: when the path is absent the first call
appends it to the corresponding list (leaving the other list untouched)
and reports a write; the second call reports no write and returns the
document completely unchanged, including the order of both lists. -/
theorem addPath_idempotent (doc : DeployDoc) (kind : PathKind) (p : String) :
    (addPath (addPath doc kind p).1 kind p).1 = (addPath doc kind p).1
    ∧ (addPath (addPath doc kind p).1 kind p).2 = false
    ∧ (kind = PathKind.fileKind → p ∉ doc.files →
        (addPath doc kind p).1.files = doc.files ++ [p]
        ∧ (addPath doc kind p).1.objects = doc.objects
        ∧ (addPath doc kind p).2 = true)
    ∧ (kind = PathKind.objectKind → p ∉ doc.objects →
        (addPath doc kind p).1.objects = doc.objects ++ [p]
        ∧ (addPath doc kind p).1.files = doc.files
        ∧ (addPath doc kind p).2 = true) := by
  obtain ⟨files, objects⟩ := doc
  cases kind
  · by_cases h : p ∈ files <;> simp [addPath, h]
  · by_cases h : p ∈ objects <;> simp [addPath, h]

/-- C7 witness: adding `~/FileCabinet/SuiteScripts/foo.js` to an empty
manifest appends it; the second addition is a no-op. -/
theorem addPath_idempotent_witness :
    (addPath (DeployDoc.mk [] []) PathKind.fileKind "~/FileCabinet/SuiteScripts/foo.js").1.files
        = ["~/FileCabinet/SuiteScripts/foo.js"]
    ∧ (addPath (addPath (DeployDoc.mk [] []) PathKind.fileKind "~/FileCabinet/SuiteScripts/foo.js").1
          PathKind.fileKind "~/FileCabinet/SuiteScripts/foo.js").1
        = (addPath (DeployDoc.mk [] []) PathKind.fileKind "~/FileCabinet/SuiteScripts/foo.js").1
    ∧ (addPath (addPath (DeployDoc.mk [] []) PathKind.fileKind "~/FileCabinet/SuiteScripts/foo.js").1
          PathKind.fileKind "~/FileCabinet/SuiteScripts/foo.js").2 = false := by
  have h := addPath_idempotent (DeployDoc.mk [] []) PathKind.fileKind
    "~/FileCabinet/SuiteScripts/foo.js"
  refine ⟨?_, h.1, h.2.1⟩
  have h3 := h.2.2.1 rfl (by decide)
  simpa using h3.1

/-- C4: loading the registry from an account-listing output whose trimmed
text splits into a header line plus N data lines produces, for N >= 1, a
registry of exactly N environments whose authids are the first
pipe-delimited fields of the data lines, trimmed; for N = 0 (fewer than 2
lines) it raises the no-authids notification and leaves the registry
unset (the state is unchanged) rather than storing an empty registry. -/
theorem getConfig_registry_parse (s : SdfState) (out hdr : String)
    (data : List String) (ans : Option String)
    (hcfg : s.sdfConfig = none)
    (hsplit : jsSplit (jsTrim out) '\n' = hdr :: data) :
    (data = [] →
      (getConfig s false out ans).1 = s
      ∧ (getConfig s false out ans).2 =
          [Effect.showError "No authids detected.  Please configure an authid for your environment"])
    ∧ (data ≠ [] →
        ∃ cfg, (getConfig s false out ans).1 = { s with sdfConfig := some cfg }
          ∧ (getConfig s false out ans).2 = []
          ∧ cfg.environments.length = data.length
          ∧ cfg.environments.map Environment.authid
              = data.map fun line => jsTrim ((jsSplit line '|').headD "")) := by
  constructor
  · rintro rfl
    simp [getConfig, hcfg, hsplit]
  · intro hne
    have hlen : ¬(data.length + 1 < 2) := by
      rcases data with _ | ⟨d, ds⟩
      · exact absurd rfl hne
      · simp only [List.length_cons]
        omega
    refine ⟨SDFConfig.mk (data.map fun line => ⟨jsTrim ((jsSplit line '|').headD "")⟩),
      ?_, ?_, ?_, ?_⟩
    · simp [getConfig, hcfg, hsplit, hlen]
    · simp [getConfig, hcfg, hsplit, hlen]
    · simp
    · simp

/-- C4 witness: a header plus two data rows parses into a two-environment
registry keyed by the trimmed first pipe fields. -/
theorem getConfig_registry_parse_witness :
    ∃ cfg,
      (getConfig { prodState with sdfConfig := none } false
          "authid|account\nprod|12345\n sb one |67" none).1
        = { { prodState with sdfConfig := none } with sdfConfig := some cfg }
      ∧ (getConfig { prodState with sdfConfig := none } false
          "authid|account\nprod|12345\n sb one |67" none).2 = []
      ∧ cfg.environments.length = (["prod|12345", " sb one |67"] : List String).length
      ∧ cfg.environments.map Environment.authid
          = (["prod|12345", " sb one |67"] : List String).map
              fun line => jsTrim ((jsSplit line '|').headD "") := by
  exact (getConfig_registry_parse { prodState with sdfConfig := none }
    "authid|account\nprod|12345\n sb one |67" "authid|account"
    ["prod|12345", " sb one |67"] none (by decide) (by decide)).2 (by decide)

/-- C5: for a non-list-objects command the accumulated result is exactly
the input line sequence with every empty or boilerplate-prefixed line
dropped (prefixes `[INFO]`, the CLI banner, `Done.`, `Using `), the
survivors kept in arrival order (the result is a sublist of the input);
in particular the documented concrete example holds. -/
theorem collectOutput_noise_filter (cmd : CLICommand) (lines : List String)
    (h : cmd ≠ CLICommand.listObjects) :
    collectOutput cmd lines =
      lines.filter (fun line =>
        !(line = "" || jsStartsWith line "[INFO]"
          || jsStartsWith line "SuiteCloud Development Framework CLI"
          || jsStartsWith line "Done."
          || jsStartsWith line "Using "))
    ∧ (collectOutput cmd lines).Sublist lines
    ∧ collectOutput cmd ["[INFO] starting", "Done.", "result-a", "result-b"]
        = ["result-a", "result-b"] := by
  have hmap : ∀ l, mapCommandOutput cmd l = l := by
    intro l
    cases cmd <;> first | rfl | exact absurd rfl h
  have hid : ∀ ls : List String, collectOutput cmd ls = ls.filter keepLine := by
    intro ls
    rw [collectOutput, List.map_congr_left fun l _ => hmap l]
    exact List.map_id _
  refine ⟨?_, ?_, ?_⟩
  · rw [hid]
    rfl
  · rw [hid]
    exact List.filter_sublist _
  · rw [hid]
    decide

/-- C5 witness: the filter for the deploy command on the documented
concrete input sequence. -/
theorem collectOutput_noise_filter_witness :
    collectOutput CLICommand.deploy ["[INFO] starting", "Done.", "result-a", "result-b"]
      = ["result-a", "result-b"]
    ∧ collectOutput CLICommand.deploy ["", "Using authid prod", "SuiteCloud Development Framework CLI", "keep me"]
      = ["keep me"] := by
  refine ⟨(collectOutput_noise_filter CLICommand.deploy [] (by decide)).2.2, ?_⟩
  rw [(collectOutput_noise_filter CLICommand.deploy
    ["", "Using authid prod", "SuiteCloud Development Framework CLI", "keep me"] (by decide)).1]
  decide

/-- C8 counterexample: a session that delivers the single chunk `abc` (no
newline) and then completes emits no line at all: the trailing incomplete
line is discarded by the completion callback, not emitted at close, as the
claim states. -/
theorem streamSession_trailing_counterexample :
    sessionEmitted [("abc" : String).data] = []
    ∧ (streamSession [("abc" : String).data]).1 = ("abc" : String).data
    ∧ ("abc" : String).data ≠ [] := by
  decide

/-- C8 (amended): the stream wrapper buffers partial lines across delivery
chunks and splits strictly on newline: the emitted lines are exactly the
newline-terminated maximal newline-free segments of the concatenated
stream, in order, so any two chunk partitions of the same byte stream emit
the same line sequence; a partial line is never emitted before its
terminating newline arrives, and the trailing incomplete segment is never
emitted -- it remains in the buffer and is dropped when the stream
completes. -/
theorem streamSession_line_buffering (chunks : List (List Char)) :
    sessionEmitted chunks = (splitLines nlChar chunks.flatten).1
    ∧ (∀ chunks2 : List (List Char), chunks2.flatten = chunks.flatten →
        sessionEmitted chunks2 = sessionEmitted chunks)
    ∧ (∀ l ∈ sessionEmitted chunks, nlChar ∉ l)
    ∧ (streamSession chunks).1 = (splitLines nlChar chunks.flatten).2
    ∧ reglue nlChar (sessionEmitted chunks) ((streamSession chunks).1) = chunks.flatten := by
  have he : sessionEmitted chunks = (splitLines nlChar chunks.flatten).1 := by
    rw [sessionEmitted, streamSession_eq]
  have hb : (streamSession chunks).1 = (splitLines nlChar chunks.flatten).2 := by
    rw [streamSession_eq]
  refine ⟨he, ?_, ?_, hb, ?_⟩
  · intro chunks2 hj
    rw [he, sessionEmitted, streamSession_eq, hj]
  · rw [he]
    exact splitLines_complete_not_mem nlChar chunks.flatten
  · rw [he, hb]
    exact splitLines_reglue nlChar chunks.flatten

/-- C8 witness: re-chunking the same byte stream emits the same lines, and
the complete lines of `res` + `ult\nx` are exactly `result`. -/
theorem streamSession_line_buffering_witness :
    sessionEmitted [("res" : String).data, ("ult\nx" : String).data]
        = sessionEmitted [("result\nx" : String).data]
    ∧ sessionEmitted [("result\nx" : String).data] = [("result" : String).data] := by
  refine ⟨(streamSession_line_buffering [("result\nx" : String).data]).2.1
    [("res" : String).data, ("ult\nx" : String).data] (by decide), by decide⟩


theorem spawnCalls_append (a b : List Effect) :
    spawnCalls (a ++ b) = spawnCalls a ++ spawnCalls b := by
  simp [spawnCalls, List.filterMap_append]

theorem removeCalls_append (a b : List Effect) :
    removeCalls (a ++ b) = removeCalls a ++ removeCalls b := by
  simp [removeCalls, List.filterMap_append]

theorem handleStdIn_effects_calls (line : String) (ans : Option String) :
    spawnCalls (handleStdIn line ans).effects = []
    ∧ removeCalls (handleStdIn line ans).effects = [] := by
  unfold handleStdIn
  split_ifs <;> exact ⟨rfl, rfl⟩

theorem handleStdOut_calls (line : String) :
    spawnCalls (handleStdOut line) = [] ∧ removeCalls (handleStdOut line) = [] := by
  unfold handleStdOut
  split_ifs <;> exact ⟨rfl, rfl⟩

theorem lineTapEffects_calls (b : Bool) (ans : Option String) (line : String) :
    spawnCalls (lineTapEffects b ans line) = []
    ∧ removeCalls (lineTapEffects b ans line) = [] := by
  have h1 := handleStdIn_effects_calls line ans
  have h2 := handleStdOut_calls line
  unfold lineTapEffects
  rw [spawnCalls_append, spawnCalls_append, h1.1, h2.1,
    removeCalls_append, removeCalls_append, h1.2, h2.2]
  cases b <;> exact ⟨rfl, rfl⟩

theorem tapEffectsFlatten_calls (b : Bool) (ans : Option String) (lines : List String) :
    spawnCalls ((lines.map (lineTapEffects b ans)).flatten) = []
    ∧ removeCalls ((lines.map (lineTapEffects b ans)).flatten) = [] := by
  induction lines with
  | nil => exact ⟨rfl, rfl⟩
  | cons l ls ih =>
    simp only [List.map_cons, List.flatten_cons, spawnCalls_append, removeCalls_append,
      (lineTapEffects_calls b ans l).1, (lineTapEffects_calls b ans l).2, ih.1, ih.2]
    exact ⟨rfl, rfl⟩

theorem selectEnvironmentInner_calls (s : SdfState) (cfg : SDFConfig) (ans : Option String) :
    spawnCalls (selectEnvironmentInner s cfg ans).2 = []
    ∧ removeCalls (selectEnvironmentInner s cfg ans).2 = [] := by
  simp only [selectEnvironmentInner]
  rcases (cfg.environments.map Environment.authid).eraseDups with _ | ⟨n, _ | ⟨m, rest⟩⟩ <;>
    rcases ans with _ | name <;> exact ⟨rfl, rfl⟩

theorem getConfig_calls (s : SdfState) (force : Bool) (out : String) (ans : Option String) :
    spawnCalls (getConfig s force out ans).2 = []
    ∧ removeCalls (getConfig s force out ans).2 = [] := by
  simp only [getConfig]
  split_ifs with h1 h2
  · exact ⟨rfl, rfl⟩
  · exact ⟨rfl, rfl⟩
  · rcases hsc : s.sdfConfig with _ | cfg <;> rcases hae : s.activeEnvironment with _ | env
    · exact ⟨rfl, rfl⟩
    · exact ⟨rfl, rfl⟩
    · exact selectEnvironmentInner_calls s cfg ans
    · exact ⟨rfl, rfl⟩

theorem cleanup_calls (s : SdfState) :
    spawnCalls (cleanup s).2 = []
    ∧ removeCalls (cleanup s).2 =
        (match s.tempDir with
          | some dirName => if dirName ≠ "" then [dirName] else []
          | none => []) := by
  obtain ⟨-, -, -, -, -, -, -, -, h2⟩ := cleanup_spec s
  rw [h2]
  rcases s.tempDir with _ | dirName
  · exact ⟨rfl, rfl⟩
  · by_cases hd : dirName = "" <;> simp [hd, spawnCalls, removeCalls]

theorem statusBarDefault_congr {a b : SdfState}
    (h : a.activeEnvironment = b.activeEnvironment) :
    statusBarDefault a = statusBarDefault b := by
  rw [statusBarDefault, statusBarDefault, h]

theorem runCommandExec_spawnCalls (s1 : SdfState) (effs : List Effect)
    (cmd : CLICommand) (args : List String) (dans : Option String)
    (outcome : Except String (List (List Char)))
    (hsome : s1.sdfConfig.isSome = true)
    (hact : s1.activeEnvironment.isSome = true) :
    spawnCalls (runCommandExec s1 effs cmd args dans outcome).2.1
      = spawnCalls effs ++ [(workPathOf s1, commandArrayOf s1 cmd args)] := by
  rw [runCommandExec]
  rw [if_pos (by rw [hsome, hact]; rfl)]
  cases outcome with
  | ok chunks =>
    simp only [spawnCalls_append,
      (tapEffectsFlatten_calls _ _ _).1, (cleanup_calls _).1]
    simp [spawnCalls]
  | error e =>
    simp only [spawnCalls_append, (cleanup_calls _).1]
    simp [spawnCalls]

theorem runCommandExec_removeCalls (s1 : SdfState) (effs : List Effect)
    (cmd : CLICommand) (args : List String) (dans : Option String)
    (outcome : Except String (List (List Char)))
    (hsome : s1.sdfConfig.isSome = true)
    (hact : s1.activeEnvironment.isSome = true) :
    removeCalls (runCommandExec s1 effs cmd args dans outcome).2.1
      = removeCalls effs
        ++ (match s1.tempDir with
            | some dirName => if dirName ≠ "" then [dirName] else []
            | none => []) := by
  rw [runCommandExec]
  rw [if_pos (by rw [hsome, hact]; rfl)]
  cases outcome with
  | ok chunks =>
    simp only [removeCalls_append,
      (tapEffectsFlatten_calls _ _ _).2, (cleanup_calls _).2]
    simp [removeCalls, showStatus]
  | error e =>
    have hc1 : (cleanup (showStatus s1)).1.tempDir = none := (cleanup_spec _).2.2.2.2.1
    simp only [removeCalls_append, (cleanup_calls _).2, hc1]
    simp [removeCalls, showStatus]

theorem runCommandExec_state (s1 : SdfState) (effs : List Effect)
    (cmd : CLICommand) (args : List String) (dans : Option String)
    (outcome : Except String (List (List Char)))
    (hsome : s1.sdfConfig.isSome = true)
    (hact : s1.activeEnvironment.isSome = true) :
    (runCommandExec s1 effs cmd args dans outcome).1.doAddProjectParameter = true
    ∧ (runCommandExec s1 effs cmd args dans outcome).1.addDefaultParameters = true
    ∧ (runCommandExec s1 effs cmd args dans outcome).1.doShowOutput = true
    ∧ (runCommandExec s1 effs cmd args dans outcome).1.doReturnData = false
    ∧ (runCommandExec s1 effs cmd args dans outcome).1.tempDir = none
    ∧ ((runCommandExec s1 effs cmd args dans outcome).1.statusText = s1.statusText
        ∨ (runCommandExec s1 effs cmd args dans outcome).1.statusText
            = statusBarDefault (runCommandExec s1 effs cmd args dans outcome).1) := by
  rw [runCommandExec]
  rw [if_pos (by rw [hsome, hact]; rfl)]
  cases outcome with
  | ok chunks =>
    obtain ⟨f1, f2, f3, f4, f5, -, -, ht, -⟩ := cleanup_spec (showStatus s1)
    exact ⟨f1, f2, f3, f4, f5, Or.inl (by rw [ht]; rfl)⟩
  | error e =>
    obtain ⟨f1, f2, f3, f4, f5, -, he, ht, -⟩ := cleanup_spec (cleanup (showStatus s1)).1
    have hsv : (cleanup (showStatus s1)).1.savedStatus = none := (cleanup_spec _).2.2.2.2.2.1
    refine ⟨f1, f2, f3, f4, f5, Or.inr ?_⟩
    rw [ht, hsv]
    exact statusBarDefault_congr he.symm

/-- C9 counterexample: starting from an invalidated registry
(`sdfConfig = null`, as the authenticate flow leaves it) with active
environment `stale`, a reload that lists only `prod` keeps `stale` as the
active environment, raises no notification, and the next command executes
(spawning the subprocess with `-authid stale`) instead of falling back to
the unselected state. -/
theorem getConfig_stale_counterexample :
    (getConfig staleState false authListSample none).1.sdfConfig
        = some ⟨[⟨"prod"⟩]⟩
    ∧ (getConfig staleState false authListSample none).1.activeEnvironment
        = some ⟨"stale"⟩
    ∧ (getConfig staleState false authListSample none).1.activeEnvironment ≠ none
    ∧ (getConfig staleState false authListSample none).2 = []
    ∧ (runCommand staleState CLICommand.deploy [] authListSample none none
        (Except.ok [])).2.1
      = [Effect.spawnProc "/home/user/proj"
          ["deploy", "-authid", "stale", "-p", "/home/user/proj"]] := by
  decide

/-- C9 (amended): when the registry is rebuilt (forced reload, or lazy
reload after invalidation) and the fresh account list parses, the active
environment reference is NOT revalidated: it is kept unchanged whether or
not its authid is still listed, no notification is raised, and a
subsequent command with default parameters on still executes, spawning
exactly one subprocess whose argument vector passes the kept authid via
`-authid`. -/
theorem getConfig_rebuild_keeps_active (s : SdfState) (force : Bool)
    (out : String) (ans dans : Option String) (cmd : CLICommand)
    (cmdArgs : List String) (outcome : Except String (List (List Char)))
    (env : Environment)
    (hload : force = true ∨ s.sdfConfig = none)
    (henv : s.activeEnvironment = some env)
    (hdef : s.addDefaultParameters = true)
    (hlines : ¬((jsSplit (jsTrim out) '\n').length < 2)) :
    (getConfig s force out ans).1.activeEnvironment = some env
    ∧ (getConfig s force out ans).2 = []
    ∧ (spawnCalls (runCommand s cmd cmdArgs out ans dans outcome).2.1).map
          (fun p => p.2.take 3)
        = [[commandToken cmd, "-authid", env.authid]] := by
  have hcond : (force || s.sdfConfig.isNone) = true := by
    rcases hload with rfl | hnone
    · rfl
    · simp [hnone]
  refine ⟨?_, ?_, ?_⟩
  · simp [getConfig, hcond, if_neg hlines, henv]
  · simp [getConfig, hcond, if_neg hlines]
  · have hact1 : (getConfig s false out ans).1.activeEnvironment = some env := by
      by_cases hc : s.sdfConfig.isNone = true
      · simp [getConfig, hc, if_neg hlines, henv]
      · rcases hsc : s.sdfConfig with _ | cfg
        · rw [hsc] at hc; exact absurd rfl hc
        · simp [getConfig, hsc, henv]
    have hsome1 : (getConfig s false out ans).1.sdfConfig.isSome = true := by
      by_cases hc : s.sdfConfig.isNone = true
      · simp [getConfig, hc, if_neg hlines]
      · rcases hsc : s.sdfConfig with _ | cfg
        · rw [hsc] at hc; exact absurd rfl hc
        · simp [getConfig, hsc, henv]
    have hdef1 : (getConfig s false out ans).1.addDefaultParameters = true := by
      by_cases hc : s.sdfConfig.isNone = true
      · simp [getConfig, hc, if_neg hlines, hdef]
      · rcases hsc : s.sdfConfig with _ | cfg
        · rw [hsc] at hc; exact absurd rfl hc
        · simp [getConfig, hsc, henv, hdef]
    rw [runCommand]
    rw [runCommandExec_spawnCalls _ _ _ _ _ _ hsome1 (by rw [hact1]; rfl),
      (getConfig_calls s false out ans).1]
    rw [commandArrayOf, hdef1, hact1]
    simp [List.take]

/-- C9 witness: the amended behavior at the concrete stale state. -/
theorem getConfig_rebuild_keeps_active_witness :
    (getConfig staleState false authListSample none).1.activeEnvironment
        = some ⟨"stale"⟩
    ∧ (spawnCalls (runCommand staleState CLICommand.deploy [] authListSample none none
          (Except.ok [])).2.1).map (fun p => p.2.take 3)
        = [["deploy", "-authid", "stale"]] := by
  have h := getConfig_rebuild_keeps_active staleState false authListSample none none
    CLICommand.deploy [] (Except.ok []) ⟨"stale"⟩ (Or.inr rfl) rfl rfl (by decide)
  exact ⟨h.1, h.2.2⟩

/-- C2: for every command run through `runCommand`, whether the collected
data promise resolves or rejects, cleanup runs afterwards: the
per-command flags return to their defaults (`doAddProjectParameter`,
`addDefaultParameters`, `doShowOutput` on, `doReturnData` off), a staging
directory handle that was active is removed via its removal callback
exactly once and the handle is cleared, the status indicator is restored
to the saved or default text, and exactly one subprocess is spawned (no
automatic retry). -/
theorem runCommand_cleanup_guarantee (s0 : SdfState) (cmd : CLICommand)
    (args : List String) (out : String) (ans dans : Option String)
    (outcome : Except String (List (List Char)))
    (cfg : SDFConfig) (env : Environment)
    (hcfg : s0.sdfConfig = some cfg) (henv : s0.activeEnvironment = some env) :
    (runCommand s0 cmd args out ans dans outcome).1.doAddProjectParameter = true
    ∧ (runCommand s0 cmd args out ans dans outcome).1.addDefaultParameters = true
    ∧ (runCommand s0 cmd args out ans dans outcome).1.doShowOutput = true
    ∧ (runCommand s0 cmd args out ans dans outcome).1.doReturnData = false
    ∧ (runCommand s0 cmd args out ans dans outcome).1.tempDir = none
    ∧ removeCalls (runCommand s0 cmd args out ans dans outcome).2.1
        = (match s0.tempDir with
            | some dirName => if dirName ≠ "" then [dirName] else []
            | none => [])
    ∧ ((runCommand s0 cmd args out ans dans outcome).1.statusText = s0.statusText
        ∨ (runCommand s0 cmd args out ans dans outcome).1.statusText
            = statusBarDefault (runCommand s0 cmd args out ans dans outcome).1)
    ∧ (spawnCalls (runCommand s0 cmd args out ans dans outcome).2.1).length = 1 := by
  have hget : getConfig s0 false out ans = (s0, []) := by
    simp [getConfig, hcfg, henv]
  have hsome : s0.sdfConfig.isSome = true := by rw [hcfg]; rfl
  have hact : s0.activeEnvironment.isSome = true := by rw [henv]; rfl
  simp only [runCommand, hget]
  obtain ⟨f1, f2, f3, f4, f5, f6⟩ := runCommandExec_state s0 [] cmd args dans outcome hsome hact
  refine ⟨f1, f2, f3, f4, f5, ?_, ?_, ?_⟩
  · rw [runCommandExec_removeCalls s0 [] cmd args dans outcome hsome hact]
    rfl
  · exact f6
  · rw [runCommandExec_spawnCalls s0 [] cmd args dans outcome hsome hact]
    rfl

/-- C2 witness: a failing session (stream error) from the staged state
still removes the staging directory exactly once, clears the handle,
restores the default flags, and spawned exactly one subprocess. -/
theorem runCommand_cleanup_guarantee_witness :
    (runCommand stagedState CLICommand.deploy [] "" none none
        (Except.error "exit 1")).1.tempDir = none
    ∧ removeCalls (runCommand stagedState CLICommand.deploy [] "" none none
        (Except.error "exit 1")).2.1 = ["/tmp/sdf-123"]
    ∧ (runCommand stagedState CLICommand.deploy [] "" none none
        (Except.error "exit 1")).1.doReturnData = false
    ∧ (spawnCalls (runCommand stagedState CLICommand.deploy [] "" none none
        (Except.error "exit 1")).2.1).length = 1 := by
  have h := runCommand_cleanup_guarantee stagedState CLICommand.deploy [] "" none none
    (Except.error "exit 1") ⟨[⟨"prod"⟩]⟩ ⟨"prod"⟩ rfl rfl
  refine ⟨h.2.2.2.2.1, ?_, h.2.2.2.1, h.2.2.2.2.2.2.2⟩
  rw [h.2.2.2.2.2.1]
  rfl

/-- C3: evaluation of the code at the failing input.  With an active
staging directory (whose `tmp.dirSync` name is the absolute path
`/tmp/sdf-123`) the spawned subprocess receives working directory and
`-p` value `path.join(rootPath, "/tmp/sdf-123") = "/home/user/proj/tmp/sdf-123"`,
which is NOT the staging directory itself; without a staging directory the
working directory is the project root as the claim states. -/
theorem runCommand_staging_cwd_eval :
    spawnCalls (runCommand stagedState CLICommand.deploy [] "" none none
        (Except.ok [])).2.1
      = [("/home/user/proj/tmp/sdf-123",
          ["deploy", "-authid", "prod", "-p", "/home/user/proj/tmp/sdf-123"])]
    ∧ ("/home/user/proj/tmp/sdf-123" : String) ≠ "/tmp/sdf-123"
    ∧ spawnCalls (runCommand prodState CLICommand.deploy [] "" none none
        (Except.ok [])).2.1
      = [("/home/user/proj", ["deploy", "-authid", "prod", "-p", "/home/user/proj"])] := by
  decide
